import Mathlib

-- Verification of the Find-Meraki-Ports-With-MAC core against its specification.
-- Go strings are embedded as List Char (all relevant data is ASCII); Go maps as
-- association lists or membership lists; network and DNS effects as explicit
-- oracle functions; fallible Go calls as Except values.

set_option maxHeartbeats 1000000

deriving instance DecidableEq for Except

-- ── Shared character / string helpers (ASCII fragment of the Go stdlib) ─────

/-- Convert a Lean string literal to the List Char embedding of a Go string. -/
def chars (s : String) : List Char :=
  s.data

/-- isHexDigit from pkg/macaddr/macaddr.go: 0-9, A-F, a-f. -/
def isHexDigit (b : Char) : Bool :=
  (decide ('0' ≤ b) && decide (b ≤ '9')) || (decide ('A' ≤ b) && decide (b ≤ 'F')) ||
    (decide ('a' ≤ b) && decide (b ≤ 'f'))

/-- MAC separator characters stripped by the normalizers: colon, period, hyphen. -/
def goIsSep (c : Char) : Bool :=
  c = ':' || c = '.' || c = '-'

/-- ASCII fragment of strings.ToLower (inputs in this code base are ASCII). -/
def toLowerA (c : Char) : Char :=
  if decide ('A' ≤ c) && decide (c ≤ 'Z') then Char.ofNat (c.toNat + 32) else c

/-- ASCII fragment of strings.ToUpper. -/
def toUpperA (c : Char) : Char :=
  if decide ('a' ≤ c) && decide (c ≤ 'z') then Char.ofNat (c.toNat - 32) else c

/-- ASCII fragment of unicode.IsSpace, as used by strings.TrimSpace. -/
def goIsSpace (c : Char) : Bool :=
  c = ' ' || c = '\t' || c = '\n' || c = '\r' || c = '\x0b' || c = '\x0c'

/-- strings.TrimSpace restricted to ASCII whitespace. -/
def goTrimSpace (s : List Char) : List Char :=
  ((s.dropWhile goIsSpace).reverse.dropWhile goIsSpace).reverse

/-- strings.EqualFold restricted to ASCII (simple fold = lower-casing). -/
def goEqualFold (a b : List Char) : Bool :=
  a.map toLowerA == b.map toLowerA

/-- firstNonEmpty from main.go: first value whose TrimSpace is non-empty, else "". -/
def firstNonEmpty : List (List Char) → List Char
  | [] => []
  | v :: rest => if goTrimSpace v ≠ [] then v else firstNonEmpty rest

/-- firstNonZeroInt from main.go: first non-zero value, else 0. -/
def firstNonZeroInt : List Nat → Nat
  | [] => 0
  | v :: rest => if v ≠ 0 then v else firstNonZeroInt rest

-- ── pkg/macaddr/macaddr.go ───────────────────────────────────────────────────

/-- The distinguishable error classes surfaced by the macaddr package.
Each constructor corresponds to one distinct error message in the source. -/
inductive MacErr where
  /-- invalid MAC address length (NormalizeExactMac) -/
  | invalidLength
  /-- invalid MAC address characters (NormalizeExactMac) -/
  | invalidChar
  /-- MAC pattern cannot be empty (BuildMacMatcher) -/
  | emptyPattern
  /-- unmatched bracket in MAC pattern (BuildMacRegex) -/
  | unmatchedBracket
  /-- invalid bracket pattern: bad shape (sanitizeBracket prefix/suffix check) -/
  | invalidBracketShape
  /-- empty bracket pattern (sanitizeBracket) -/
  | emptyBracket
  /-- invalid bracket pattern: non-hex, non-dash content (sanitizeBracket) -/
  | invalidBracketContent
  /-- invalid MAC pattern: non-hex character outside brackets (BuildMacRegex) -/
  | invalidPattern
  /-- invalid MAC pattern length, need 12 nibbles (BuildMacRegex) -/
  | patternLength
  /-- regexp.Compile failure (inverted character-class range) -/
  | regexCompile
deriving DecidableEq, Repr

/-- NormalizeExactMac: lower-case, strip colon/period/hyphen, require exactly
12 hex characters. -/
def NormalizeExactMac (input : List Char) : Except MacErr (List Char) :=
  let clean := (input.map toLowerA).filter (fun c => !goIsSep c)
  if clean.length ≠ 12 then .error .invalidLength
  else if clean.all isHexDigit then .ok clean
  else .error .invalidChar

/-- The colon-insertion loop of FormatMacColon: write two characters, then a
colon before every following pair. -/
def colonChunks : List Char → List Char
  | a :: b :: rest => if rest = [] then [a, b] else a :: b :: ':' :: colonChunks rest
  | rest => rest

/-- FormatMacColon: lower-case; if the input is 12 characters, insert colons
every two characters, otherwise return it unchanged. -/
def FormatMacColon (clean : List Char) : List Char :=
  let clean := clean.map toLowerA
  if clean.length = 12 then colonChunks clean else clean

/-- NormalizePatternInput: drop separators, keep * and brackets, upper-case. -/
def NormalizePatternInput (input : List Char) : List Char :=
  (input.filter (fun c => !goIsSep c)).map toUpperA

/-- sanitizeBracket: validate a bracket token such as left-bracket 1-4
right-bracket; non-empty inner content of hex digits and dashes, upper-cased. -/
def sanitizeBracket (token : List Char) : Except MacErr (List Char) :=
  if token.head? = some '[' ∧ token.getLast? = some ']' then
    let inner := ((token.drop 1).dropLast).map toUpperA
    if inner = [] then .error .emptyBracket
    else if inner.all (fun c => c = '-' || isHexDigit c) then .ok inner
    else .error .invalidBracketContent
  else .error .invalidBracketShape

/-- One positional token of a compiled MAC pattern: a literal hex digit
(1 nibble), a wildcard byte from an asterisk (2 nibbles), or a bracket
character set (1 nibble) holding its sanitized inner content. -/
inductive MacTok where
  | lit (c : Char)
  | wild
  | set (inner : List Char)
deriving DecidableEq, Repr

/-- Nibble weight of a token: literal 1, wildcard byte 2, bracket set 1. -/
def tokNibbles : MacTok → Nat
  | .lit _ => 1
  | .wild => 2
  | .set _ => 1

/-- Total nibble count of a token list, matching nibbleCount in BuildMacRegex. -/
def nibbleCount (toks : List MacTok) : Nat :=
  (toks.map tokNibbles).sum

/-- The left-to-right scan of BuildMacRegex. The first argument is none when
outside a bracket and some acc when inside one, acc holding the reversed
characters read since the opening bracket (the Go code finds the first closing
bracket and takes the slice; accumulating to the first closing bracket is the
same computation). -/
def scanAux : Option (List Char) → List Char → Except MacErr (List MacTok)
  | none, [] => .ok []
  | some _, [] => .error .unmatchedBracket
  | none, '[' :: rest => scanAux (some []) rest
  | none, '*' :: rest => (scanAux none rest).map (fun ts => .wild :: ts)
  | none, c :: rest =>
    if isHexDigit c then (scanAux none rest).map (fun ts => .lit c :: ts)
    else .error .invalidPattern
  | some acc, ']' :: rest =>
    match sanitizeBracket ('[' :: (acc.reverse ++ [']'])) with
    | .error e => .error e
    | .ok inner => (scanAux none rest).map (fun ts => .set inner :: ts)
  | some acc, c :: rest => scanAux (some (c :: acc)) rest

/-- Whether every range a-b inside a character class is non-inverted; an
inverted range makes regexp.Compile fail. Mirrors the greedy left-to-right
class parse of the regexp engine. -/
def classRangesOk : List Char → Bool
  | a :: '-' :: b :: rest => decide (a ≤ b) && classRangesOk rest
  | _ :: rest => classRangesOk rest
  | [] => true

/-- All character classes of the token list compile. -/
def toksCompile (toks : List MacTok) : Bool :=
  toks.all fun t =>
    match t with
    | .set inner => classRangesOk inner
    | _ => true

/-- BuildMacRegex: scan the cleaned pattern into tokens, require exactly
12 nibbles, then compile (modelled as the class-range validity check, the only
way regexp.Compile can fail on the emitted pattern). -/
def BuildMacRegex (clean : List Char) : Except MacErr (List MacTok) :=
  match scanAux none clean with
  | .error e => .error e
  | .ok toks =>
    if nibbleCount toks ≠ 12 then .error .patternLength
    else if toksCompile toks then .ok toks
    else .error .regexCompile

/-- Membership of a character in a regex character class with the given inner
content (greedy a-b ranges, leading/trailing dash literal). -/
def classMatch : List Char → Char → Bool
  | a :: '-' :: b :: rest, c => (decide (a ≤ c) && decide (c ≤ b)) || classMatch rest c
  | a :: rest, c => a = c || classMatch rest c
  | [], _ => false

/-- Upper-case hex digit or decimal digit: the class 0-9A-F used for a
wildcard byte in the emitted regex. -/
def isUpperHex (c : Char) : Bool :=
  (decide ('0' ≤ c) && decide (c ≤ '9')) || (decide ('A' ≤ c) && decide (c ≤ 'F'))

/-- Anchored matching of a compiled token list against a string, the semantics
of the regex BuildMacRegex emits (caret pattern dollar). -/
def matchToks : List MacTok → List Char → Bool
  | [], [] => true
  | [], _ :: _ => false
  | .lit c :: ts, x :: xs => (x = c) && matchToks ts xs
  | .wild :: ts, x :: y :: xs => isUpperHex x && isUpperHex y && matchToks ts xs
  | .set inner :: ts, x :: xs => classMatch inner x && matchToks ts xs
  | _ :: _, _ => false

/-- The data captured by the matcher closure BuildMacMatcher returns: either
the normalized exact address, or the compiled wildcard tokens. -/
inductive Matcher where
  | exact (normalized : List Char)
  | wild (toks : List MacTok)
deriving DecidableEq, Repr

/-- Apply a matcher to a candidate MAC string, as the two closures in
BuildMacMatcher do: the exact closure is a bare case-insensitive equality;
the wildcard closure normalizes its input first, then runs the regex on the
upper-cased normal form. -/
def runMatcher : Matcher → List Char → Bool
  | .exact normalized, mac => goEqualFold mac normalized
  | .wild toks, mac =>
    match NormalizeExactMac mac with
    | .error _ => false
    | .ok normalized => matchToks toks (normalized.map toUpperA)

/-- BuildMacMatcher: trim, reject empty, dispatch on the presence of an
asterisk or bracket; returns (matcher, display pattern, isPattern flag). -/
def BuildMacMatcher (input0 : List Char) : Except MacErr (Matcher × List Char × Bool) :=
  let input := goTrimSpace input0
  if input = [] then .error .emptyPattern
  else if decide ('*' ∈ input) || decide ('[' ∈ input) then
    match BuildMacRegex (NormalizePatternInput input) with
    | .error e => .error e
    | .ok toks => .ok (.wild toks, input, true)
  else
    match NormalizeExactMac input with
    | .error e => .error e
    | .ok normalized => .ok (.exact normalized, FormatMacColon normalized, false)

-- ── pkg/filters (MatchesPortFilter) ──────────────────────────────────────────

/-- strings.Contains: substring (here: infix) test. -/
def goContains (s sub : List Char) : Bool :=
  decide (sub <:+: s)

/-- MatchesPortFilter from pkg/filters: exact match or substring match. -/
def MatchesPortFilter (port filter : List Char) : Bool :=
  if port = filter then true else goContains port filter

-- ── pkg/output (ResultRow) and addResult from main.go ────────────────────────

/-- ResultRow as constructed by main.go (the output writers consume it). -/
structure ResultRow where
  orgName : List Char
  networkName : List Char
  switchName : List Char
  switchSerial : List Char
  port : List Char
  mac : List Char
  ip : List Char
  hostname : List Char
  lastSeen : List Char
  vlan : Int
  portMode : List Char
deriving DecidableEq, Repr

/-- The dedup key built by addResult: serial, port and MAC joined by pipes
(fmt.Sprintf with three string verbs). -/
def rowKey (row : ResultRow) : List Char :=
  row.switchSerial ++ '|' :: row.port ++ '|' :: row.mac

/-- The per-pass accumulation state: the dedup index (the key set of the Go
map) and the ordered result rows. -/
structure DedupState where
  index : List (List Char)
  rows : List ResultRow
deriving DecidableEq, Repr

/-- addResult from main.go: drop the row if its key is already indexed,
otherwise index the key and append the row. -/
def addResult (st : DedupState) (row : ResultRow) : DedupState :=
  let key := rowKey row
  if key ∈ st.index then st
  else ⟨key :: st.index, st.rows ++ [row]⟩

/-- Present a list of rows to addResult one at a time. -/
def foldAddResults (st : DedupState) (presented : List ResultRow) : DedupState :=
  presented.foldl addResult st

/-- Modelled from the spec: keep the first row presented for each
(deviceSerial, port, address) key and drop every later one, so the
first-inserted non-key fields win. Stated independently of addResult for the
refinement proof of the dedup claim. -/
def specDedupFirstWins (seen : List (List Char)) : List ResultRow → List ResultRow
  | [] => []
  | r :: rs =>
    if rowKey r ∈ seen then specDedupFirstWins seen rs
    else r :: specDedupFirstWins (rowKey r :: seen) rs

-- ── pkg/meraki/client.go: doRequest ──────────────────────────────────────────

/-- One upstream HTTP response as doRequest inspects it. retryAfter is the
Retry-After header: none when absent, some none when present but not parsable
as seconds, some (some s) when it parses to s seconds. -/
structure HttpResp where
  status : Nat
  body : List Char
  retryAfter : Option (Option Nat)
  linkNext : List Char
deriving DecidableEq, Repr

/-- Outcome of doRequest. okResp carries the body and the next-page link;
httpError carries the non-success status and body; transportError is a
client.Do failure; exhausted is the retries-spent error. -/
inductive DoResult where
  | okResp (body : List Char) (linkNext : List Char)
  | httpError (status : Nat) (body : List Char)
  | transportError
  | exhausted
deriving DecidableEq, Repr

/-- The sleep taken for a throttled attempt (0-based index): the parsed
Retry-After seconds when the header parses, else linear backoff 1+attempt. -/
def goRetryDelay (r : HttpResp) (attempt : Nat) : Nat :=
  match r.retryAfter with
  | some (some s) => s
  | _ => 1 + attempt

/-- The attempt loop of doRequest. i is the 0-based attempt index, n the
remaining budget, sleeps the seconds slept so far (in order). Only a 429
continues the loop; any other status returns at once. -/
def doRequestGo (respOf : Nat → Except Unit HttpResp) :
    Nat → Nat → List Nat → DoResult × List Nat
  | _, 0, sleeps => (.exhausted, sleeps)
  | i, n + 1, sleeps =>
    match respOf i with
    | .error _ => (.transportError, sleeps)
    | .ok r =>
      if r.status = 429 then doRequestGo respOf (i + 1) n (sleeps ++ [goRetryDelay r i])
      else if 300 ≤ r.status then (.httpError r.status r.body, sleeps)
      else (.okResp r.body r.linkNext, sleeps)

/-- doRequest from pkg/meraki/client.go over an oracle giving the response of
each attempt; returns the outcome and the ordered throttle sleeps. -/
def doRequest (maxRetries : Nat) (respOf : Nat → Except Unit HttpResp) :
    DoResult × List Nat :=
  doRequestGo respOf 0 maxRetries []

/-- Whether an attempt outcome is a throttling (429) response. -/
def isThrottle : Except Unit HttpResp → Bool
  | .ok r => r.status = 429
  | .error _ => false

/-- The sleep a throttled attempt produces (unused value for a transport
error, which cannot be throttled). -/
def delayOf (e : Except Unit HttpResp) (i : Nat) : Nat :=
  match e with
  | .ok r => goRetryDelay r i
  | .error _ => 0

/-- What doRequest returns upon reaching a non-throttled attempt outcome. -/
def stepResult : Except Unit HttpResp → DoResult
  | .error _ => .transportError
  | .ok r =>
    if r.status = 429 then .exhausted
    else if 300 ≤ r.status then .httpError r.status r.body
    else .okResp r.body r.linkNext

-- ── pkg/meraki/client.go: MAC-table poll loop (main.go consumers) ────────────

/-- One live MAC-table entry as the orchestrator reads it from the poll
response map: mac plus the candidate port field names, the vlan number and
the port type. Absent or wrongly-typed fields read as empty (the zero value
of the Go type assertion). -/
structure MacEntry where
  mac : List Char
  portId : List Char
  port : List Char
  iface : List Char
  vlan : Int
  typ : List Char
deriving DecidableEq, Repr

/-- One GetMacTableLookup call outcome: a request error, or entries plus a
status string. -/
def PollResp : Type :=
  Except Unit (List MacEntry × List Char)

/-- Result of the poll loop: the entries and status variables after the loop,
and how many GetMacTableLookup calls were made. -/
structure PollOut where
  entries : List MacEntry
  status : List Char
  calls : Nat
deriving Repr

/-- The poll loop of processSwitchesForResolution (main.go lines 1595-1605;
the loop in main at 466-483 is the same shape): up to the budget, call
GetMacTableLookup; an error overwrites entries and status with their zero
values and breaks; a complete status breaks; otherwise the loop continues
with the latest entries and status. -/
def pollMacTableLoop (polls : Nat → PollResp) : Nat → Nat → List MacEntry → List Char → PollOut
  | _, 0, es, st => ⟨es, st, 0⟩
  | i, n + 1, _, _ =>
    match polls i with
    | .error _ => ⟨[], [], 1⟩
    | .ok (es, st) =>
      if st = chars (r"complete") then ⟨es, st, 1⟩
      else
        let out := pollMacTableLoop polls (i + 1) n es st
        ⟨out.entries, out.status, out.calls + 1⟩

-- ── Host override resolver (pkg/meraki) ──────────────────────────────────────

/-- One host-override rule: organization scope, network scope (literal name or
the asterisk wildcard), IP and hostname. -/
structure HostOverrideRule where
  org : List Char
  net : List Char
  ip : List Char
  hostname : List Char
deriving DecidableEq, Repr

/-- Modelled from the spec: the hostname the rule table yields for one scope
tier (an org pattern and a net pattern) and an IP — the first configured rule
with exactly that scope and IP, or empty when none. The repository ships only
the unit tests of the resolver (src/unnamed/part_003); the resolver source
file itself is absent, so this follows specification section 4.6 and those
tests. -/
def lookupTier (rules : List HostOverrideRule) (orgScope netScope ip : List Char) : List Char :=
  match rules.find? (fun r => r.org == orgScope && r.net == netScope && r.ip == ip) with
  | some r => r.hostname
  | none => []

/-- Modelled from the spec: LookupHostOverride tries the four scope tiers from
most to least specific — exact org and net, exact org with wildcard net,
wildcard org with exact net, wildcard both — and returns the first tier that
yields a hostname, or empty when no rule matches (not an error). -/
def LookupHostOverride (rules : List HostOverrideRule) (ip org net : List Char) : List Char :=
  let t1 := lookupTier rules org net ip
  if t1 ≠ [] then t1
  else
    let t2 := lookupTier rules org (chars (r"*")) ip
    if t2 ≠ [] then t2
    else
      let t3 := lookupTier rules (chars (r"*")) net ip
      if t3 ≠ [] then t3
      else lookupTier rules (chars (r"*")) (chars (r"*")) ip

-- ── main.go data model ───────────────────────────────────────────────────────

/-- meraki.Device, the fields the orchestrator uses. -/
structure Device where
  serial : List Char
  name : List Char
  model : List Char
  productType : List Char
deriving DecidableEq, Repr

/-- meraki.Client, one device-scoped historical client record. -/
structure DeviceClient where
  mac : List Char
  switchport : List Char
  switchportName : List Char
  port : List Char
  lastSeen : List Char
deriving DecidableEq, Repr

/-- meraki.Network. -/
structure Network where
  id : List Char
  name : List Char
deriving DecidableEq, Repr

/-- Config from main.go, restricted to the fields the resolution paths read.
Field defaults are the Go zero values, so a composite literal that omits a
field leaves the zero value exactly as in Go. -/
structure Config where
  apiKey : List Char := []
  orgID : List Char := []
  networkName : List Char := []
  logLevel : List Char := []
  maxRetries : Nat := 0
  macTablePoll : Nat := 0
deriving Repr

/-- The decoded /api/resolve request body of handleResolve. -/
structure ResolveReq where
  mac : List Char
  ip : List Char
  networkID : List Char
  networkIDs : List (List Char)
  orgID : List Char
  apiKey : List Char
deriving Repr

/-- The Config literal handleResolve builds for each requested network
(main.go lines 938-943): only APIKey, OrgID, NetworkName and LogLevel are
set; every other field, MacTablePoll included, keeps its zero value. -/
def handleResolveCfg (req : ResolveReq) (netID : List Char) : Config :=
  { apiKey := req.apiKey, orgID := req.orgID, networkName := netID,
    logLevel := chars (r"INFO") }

-- ── main.go: failure semantics of the two per-network loops ──────────────────

/-- What one network of a CLI run needs from upstream: the GetDevices and
GetNetworkClients outcomes. Row production from the fetched data (main.go
lines 366-593) is abstracted as the rowsOf parameter of cliNetworksLoop,
since only the fetch error handling decides the failure-semantics claim. -/
structure CliNetEnv where
  net : Network
  devices : Except (List Char) (List Device)
  clients : Except (List Char) Unit

/-- The per-network loop of the CLI run (main.go lines 341-365 for the error
handling): a GetDevices or GetNetworkClients error calls exitWithError, which
terminates the whole process — no later network is processed and no rows are
printed. rowsOf gives the rows a successfully fetched network contributes. -/
def cliNetworksLoop (rowsOf : CliNetEnv → List ResultRow) :
    List CliNetEnv → Except (List Char) (List ResultRow)
  | [] => .ok []
  | e :: rest =>
    match e.devices with
    | .error msg => .error msg
    | .ok _ =>
      match e.clients with
      | .error msg => .error msg
      | .ok _ =>
        match cliNetworksLoop rowsOf rest with
        | .error msg => .error msg
        | .ok rows => .ok (rowsOf e ++ rows)

/-- The per-network loop of handleResolve (main.go lines 936-950): a
resolveDevices error skips that network (continue) and the loop keeps
aggregating the remaining networks. -/
def handleResolveLoop (resolve : List Char → Except (List Char) (List ResultRow)) :
    List (List Char) → List ResultRow
  | [] => []
  | id :: rest =>
    match resolve id with
    | .error _ => handleResolveLoop resolve rest
    | .ok rs => rs ++ handleResolveLoop resolve rest

-- ── main.go: per-switch resolution step (processSwitchesForResolution) ───────

/-- What one switch of a pass needs from upstream: the CreateMacTableLookup
outcome, the GetMacTableLookup outcome of every poll attempt, and the
GetDeviceClients outcome of the fallback. -/
structure DevEnv where
  create : Except Unit (List Char)
  polls : Nat → PollResp
  deviceClients : Except Unit (List DeviceClient)

/-- The port extraction from a live table entry (portId, then port, then
interface; each tried when the previous one is empty). -/
def entryPortID (e : MacEntry) : List Char :=
  let p := e.portId
  let p := if p = [] then e.port else p
  if p = [] then e.iface else p

/-- The device-clients fallback of processSwitchesForResolution (main.go
lines 1656-1684): fetch the device-scoped historical clients (an error just
moves to the next switch), and for each record whose MAC normalizes and
matches, enrich the port and add a result row. enrich stands for
enrichPortInfo, which performs a network call. -/
def deviceFallback (orgName netName : List Char) (m : Matcher)
    (enrich : List Char → List Char → Int → List Char → Int × List Char)
    (hostname : List Char) (dev : Device) (env : DevEnv) (st : DedupState) : DedupState :=
  match env.deviceClients with
  | .error _ => st
  | .ok clients =>
    clients.foldl
      (fun st c =>
        match NormalizeExactMac c.mac with
        | .error _ => st
        | .ok normMAC =>
          if runMatcher m normMAC then
            let port := firstNonEmpty [c.switchportName, c.switchport, c.port, chars (r"unknown")]
            let vm := enrich dev.serial port 0 []
            addResult st
              { orgName := orgName, networkName := netName,
                switchName := firstNonEmpty [dev.name, dev.serial],
                switchSerial := dev.serial, port := port,
                mac := FormatMacColon normMAC, ip := [], hostname := hostname,
                lastSeen := c.lastSeen, vlan := vm.1, portMode := vm.2 }
          else st)
      st

/-- The body of the live-table entry loop for one entry (main.go lines
1609-1645): skip empty or non-normalizing MACs and non-matching MACs;
otherwise extract the port, enrich, add the row, and raise the found flag. -/
def tableEntryStep (orgName netName : List Char) (m : Matcher)
    (enrich : List Char → List Char → Int → List Char → Int × List Char)
    (hostname : List Char) (dev : Device) (acc : DedupState × Bool) (entry : MacEntry) :
    DedupState × Bool :=
  if entry.mac = [] then acc
  else
    match NormalizeExactMac entry.mac with
    | .error _ => acc
    | .ok normMAC =>
      if runMatcher m normMAC then
        let portID := entryPortID entry
        let vm := enrich dev.serial portID entry.vlan entry.typ
        (addResult acc.1
          { orgName := orgName, networkName := netName,
            switchName := firstNonEmpty [dev.name, dev.serial],
            switchSerial := dev.serial,
            port := firstNonEmpty [portID, chars (r"unknown")],
            mac := FormatMacColon normMAC, ip := [], hostname := hostname,
            lastSeen := [], vlan := vm.1, portMode := vm.2 }, true)
      else acc

/-- One switch of the device loop of processSwitchesForResolution (main.go
lines 1582-1684). Returns the updated accumulation state and whether the
device-clients fallback ran: a CreateMacTableLookup error goes straight to
the fallback; a poll loop ending complete with entries emits the matching
rows and skips the fallback exactly when at least one row matched (the found
flag); otherwise the fallback runs. -/
def deviceStep (orgName netName : List Char) (m : Matcher)
    (enrich : List Char → List Char → Int → List Char → Int × List Char)
    (hostname : List Char) (macTablePoll : Nat) (dev : Device) (env : DevEnv)
    (st : DedupState) : DedupState × Bool :=
  match env.create with
  | .error _ => (deviceFallback orgName netName m enrich hostname dev env st, true)
  | .ok _ =>
    let pr := pollMacTableLoop env.polls 0 macTablePoll [] []
    if pr.status = chars (r"complete") ∧ pr.entries ≠ [] then
      let res := pr.entries.foldl (tableEntryStep orgName netName m enrich hostname dev) (st, false)
      if res.2 then (res.1, false)
      else (deviceFallback orgName netName m enrich hostname dev env res.1, true)
    else (deviceFallback orgName netName m enrich hostname dev env st, true)

/-- Whether a live-table entry raises the found flag: non-empty MAC that
normalizes and satisfies the matcher. -/
def entryMatches (m : Matcher) (entry : MacEntry) : Bool :=
  if entry.mac = [] then false
  else
    match NormalizeExactMac entry.mac with
    | .error _ => false
    | .ok normMAC => runMatcher m normMAC

-- ── main.go: per-serial ARP cache (ipAndHostname closure) ────────────────────

/-- The effect environment of the ipAndHostname closure in main (lines
378-400): the network-level MAC to IP side table, the live FetchArpMap call
(a network job, given here as an oracle from serial to the resulting
normalized-MAC to IP map), the hostname resolved in IP mode, and reverse
DNS. -/
structure IpEnv where
  macToIP : List Char → List Char
  fetchArp : List Char → (List Char → List Char)
  resolvedHostname : List Char
  resolveHostname : List Char → List Char

/-- The mutable state of the closure: the per-serial ARP cache and, for the
at-most-once property, the ordered trace of serials FetchArpMap was called
on. -/
structure ArpState where
  cache : List (List Char × (List Char → List Char))
  fetches : List (List Char)

/-- Look a serial up in the cache. -/
def arpCacheLookup (cache : List (List Char × (List Char → List Char))) (serial : List Char) :
    Option (List Char → List Char) :=
  match cache.find? (fun p => p.1 == serial) with
  | some p => some p.2
  | none => none

/-- The cache-fill step of ipAndHostname: on a cache miss for the serial,
perform the FetchArpMap call, record it in the cache and in the fetch trace;
on a hit, leave the state alone. -/
def arpStep (env : IpEnv) (st : ArpState) (serial : List Char) : ArpState :=
  match arpCacheLookup st.cache serial with
  | some _ => st
  | none =>
    { cache := (serial, env.fetchArp serial) :: st.cache,
      fetches := st.fetches ++ [serial] }

/-- ipAndHostname from main.go: prefer the known IP, then the network-level
side table; when still empty and a serial is known, consult the per-serial
ARP cache, filling it with one FetchArpMap call on a miss (arpStep); resolve
the hostname from the IP unless IP mode already fixed one. -/
def ipAndHostname (env : IpEnv) (st : ArpState) (normMAC knownIP serial : List Char) :
    (List Char × List Char) × ArpState :=
  let ip := knownIP
  let ip := if ip = [] then env.macToIP normMAC else ip
  let ipSt :=
    if ip = [] ∧ serial ≠ [] then
      let st2 := arpStep env st serial
      (match arpCacheLookup st2.cache serial with
       | some arpMap => arpMap normMAC
       | none => [], st2)
    else (ip, st)
  let ip := ipSt.1
  let hn := env.resolvedHostname
  let hn := if hn = [] ∧ ip ≠ [] then env.resolveHostname ip else hn
  ((ip, hn), ipSt.2)

/-- Run a list of (normMAC, knownIP, serial) enrichment requests through
ipAndHostname, threading the cache state. -/
def runIpEnrichments (env : IpEnv) (st : ArpState) :
    List (List Char × List Char × List Char) → ArpState
  | [] => st
  | (normMAC, knownIP, serial) :: rest =>
    runIpEnrichments env (ipAndHostname env st normMAC knownIP serial).2 rest

-- ── Helper lemmas ────────────────────────────────────────────────────────────

theorem foldAddResults_rows_eq (presented : List ResultRow) :
    ∀ st : DedupState,
      (foldAddResults st presented).rows = st.rows ++ specDedupFirstWins st.index presented := by
  induction presented with
  | nil => intro st; simp [foldAddResults, specDedupFirstWins]
  | cons r rs ih =>
    intro st
    show (foldAddResults (addResult st r) rs).rows = _
    by_cases hk : rowKey r ∈ st.index
    · rw [ih]
      simp [addResult, hk, specDedupFirstWins]
    · rw [ih]
      simp [addResult, hk, specDedupFirstWins]

theorem specDedup_key_not_seen (presented : List ResultRow) :
    ∀ (seen : List (List Char)) (x : ResultRow),
      x ∈ specDedupFirstWins seen presented → rowKey x ∉ seen := by
  induction presented with
  | nil => intro seen x hx; simp [specDedupFirstWins] at hx
  | cons r rs ih =>
    intro seen x hx
    by_cases hk : rowKey r ∈ seen
    · exact ih seen x (by simpa [specDedupFirstWins, hk] using hx)
    · simp only [specDedupFirstWins, hk, if_neg, ite_false] at hx
      rcases List.mem_cons.mp hx with rfl | hx
      · exact hk
      · intro hmem
        exact ih _ x hx (List.mem_cons_of_mem _ hmem)

theorem specDedup_pairwise_keys (presented : List ResultRow) :
    ∀ seen : List (List Char),
      (specDedupFirstWins seen presented).Pairwise (fun a b => rowKey a ≠ rowKey b) := by
  induction presented with
  | nil => intro seen; simp [specDedupFirstWins]
  | cons r rs ih =>
    intro seen
    by_cases hk : rowKey r ∈ seen
    · simpa [specDedupFirstWins, hk] using ih seen
    · simp only [specDedupFirstWins, hk, ite_false]
      refine List.Pairwise.cons ?_ (ih _)
      intro b hb heq
      have := specDedup_key_not_seen rs _ b hb
      exact this (heq ▸ List.mem_cons_self _ _)

-- ── C10 ──────────────────────────────────────────────────────────────────────

/-- C10: MatchesPortFilter(port, filter) returns true exactly when filter is a
substring of port (the exact-equality branch is subsumed by the substring
test); hence the empty filter matches every port, and filter 3 matches ports
3, 13, 23 and 30. -/
theorem matchesPortFilter_substring :
    (∀ port filter : List Char, MatchesPortFilter port filter = true ↔ filter <:+: port) ∧
    (∀ port : List Char, MatchesPortFilter port [] = true) ∧
    (MatchesPortFilter (chars (r"3")) (chars (r"3")) = true ∧
     MatchesPortFilter (chars (r"13")) (chars (r"3")) = true ∧
     MatchesPortFilter (chars (r"23")) (chars (r"3")) = true ∧
     MatchesPortFilter (chars (r"30")) (chars (r"3")) = true ∧
     MatchesPortFilter (chars (r"10")) (chars (r"3")) = false) := by
  have hiff : ∀ port filter : List Char, MatchesPortFilter port filter = true ↔ filter <:+: port := by
    intro port filter
    unfold MatchesPortFilter goContains
    by_cases h : port = filter
    · subst h; simp [List.infix_refl]
    · simp [h]
  refine ⟨hiff, ?_, by decide, by decide, by decide, by decide, by decide⟩
  intro port
  exact (hiff port []).mpr List.nil_infix

-- ── C5 ───────────────────────────────────────────────────────────────────────

/-- C5: the accumulated result list never contains two rows with equal
(deviceSerial, port, MAC): a row presented to addResult whose key is already
indexed is discarded unchanged whatever its other fields, so the accumulated
rows are exactly the first-presented row per key (first-inserted non-key
fields win) and are pairwise distinct on the key triple. -/
theorem addResult_dedup :
    (∀ (st : DedupState) (row : ResultRow), rowKey row ∈ st.index → addResult st row = st) ∧
    (∀ presented : List ResultRow,
       (foldAddResults ⟨[], []⟩ presented).rows = specDedupFirstWins [] presented) ∧
    (∀ presented : List ResultRow,
       ((foldAddResults ⟨[], []⟩ presented).rows).Pairwise
         (fun a b => ¬(a.switchSerial = b.switchSerial ∧ a.port = b.port ∧ a.mac = b.mac))) := by
  refine ⟨?_, ?_, ?_⟩
  · intro st row h
    simp [addResult, h]
  · intro presented
    simpa using foldAddResults_rows_eq presented ⟨[], []⟩
  · intro presented
    have hrows : (foldAddResults ⟨[], []⟩ presented).rows = specDedupFirstWins [] presented := by
      simpa using foldAddResults_rows_eq presented ⟨[], []⟩
    rw [hrows]
    refine (specDedup_pairwise_keys presented []).imp ?_
    intro a b hne htrip
    exact hne (by simp [rowKey, htrip.1, htrip.2.1, htrip.2.2])

/-- Two rows sharing the key triple but differing in lastSeen and IP, for the
dedup witness. -/
def c5rowA : ResultRow :=
  { orgName := chars (r"Org"), networkName := chars (r"Net"),
    switchName := chars (r"sw1"), switchSerial := chars (r"Q2XX-1"),
    port := chars (r"3"), mac := chars (r"00:11:22:33:44:55"),
    ip := chars (r"10.0.0.5"), hostname := chars (r"hostA"),
    lastSeen := chars (r"2026-01-01"), vlan := 10, portMode := chars (r"access") }

/-- Same key triple as c5rowA, different non-key fields. -/
def c5rowB : ResultRow :=
  { orgName := chars (r"Org"), networkName := chars (r"Net"),
    switchName := chars (r"sw1"), switchSerial := chars (r"Q2XX-1"),
    port := chars (r"3"), mac := chars (r"00:11:22:33:44:55"),
    ip := [], hostname := [], lastSeen := chars (r"2026-02-02"), vlan := 0,
    portMode := chars (r"trunk") }

/-- Witness for C5: presenting the second row with the indexed key leaves the
state untouched, and folding both rows keeps only the first. -/
theorem addResult_dedup_witness :
    addResult ⟨[rowKey c5rowA], [c5rowA]⟩ c5rowB = ⟨[rowKey c5rowA], [c5rowA]⟩ ∧
    (foldAddResults ⟨[], []⟩ [c5rowA, c5rowB]).rows = [c5rowA] := by
  constructor
  · exact addResult_dedup.1 ⟨[rowKey c5rowA], [c5rowA]⟩ c5rowB (by decide)
  · rw [addResult_dedup.2.1 [c5rowA, c5rowB]]
    decide

-- ── C7 ───────────────────────────────────────────────────────────────────────

/-- The four-scope rule table of the resolver unit tests. -/
def c7rules : List HostOverrideRule :=
  [ { org := chars (r"Acme"), net := chars (r"HQ"), ip := chars (r"1.1.1.1"),
      hostname := chars (r"exact") },
    { org := chars (r"Acme"), net := chars (r"*"), ip := chars (r"1.1.1.1"),
      hostname := chars (r"org-wildcard") },
    { org := chars (r"*"), net := chars (r"HQ"), ip := chars (r"1.1.1.1"),
      hostname := chars (r"net-wildcard") },
    { org := chars (r"*"), net := chars (r"*"), ip := chars (r"1.1.1.1"),
      hostname := chars (r"global") } ]

/-- C7: the host-override lookup returns the hostname of the most specific
matching rule in the precedence order exact-org+exact-net, exact-org+wildcard,
wildcard+exact-net, wildcard+wildcard, and returns the empty string (not an
error) when no rule scope and IP match. The resolver source is absent from
the snapshot, so this is settled against the spec-modelled definition. -/
theorem lookupHostOverride_precedence :
    (∀ (rules : List HostOverrideRule) (ip org net : List Char),
       (∀ r ∈ rules,
          ¬(r.ip = ip ∧ (r.org = org ∨ r.org = chars (r"*")) ∧
            (r.net = net ∨ r.net = chars (r"*")))) →
       LookupHostOverride rules ip org net = []) ∧
    LookupHostOverride c7rules (chars (r"1.1.1.1")) (chars (r"Acme")) (chars (r"HQ")) =
      chars (r"exact") ∧
    LookupHostOverride c7rules (chars (r"1.1.1.1")) (chars (r"Acme")) (chars (r"Branch")) =
      chars (r"org-wildcard") ∧
    LookupHostOverride c7rules (chars (r"1.1.1.1")) (chars (r"Other")) (chars (r"HQ")) =
      chars (r"net-wildcard") ∧
    LookupHostOverride c7rules (chars (r"1.1.1.1")) (chars (r"Other")) (chars (r"Other")) =
      chars (r"global") ∧
    LookupHostOverride c7rules (chars (r"9.9.9.9")) (chars (r"Acme")) (chars (r"HQ")) = [] := by
  refine ⟨?_, by decide, by decide, by decide, by decide, by decide⟩
  intro rules ip org net H
  have tier : ∀ oS nS : List Char, (oS = org ∨ oS = chars (r"*")) →
      (nS = net ∨ nS = chars (r"*")) → lookupTier rules oS nS ip = [] := by
    intro oS nS hO hN
    unfold lookupTier
    have hnone : rules.find? (fun r => r.org == oS && r.net == nS && r.ip == ip) = none := by
      rw [List.find?_eq_none]
      intro r hr hpred
      simp only [Bool.and_eq_true, beq_iff_eq] at hpred
      refine H r hr ⟨hpred.2, ?_, ?_⟩
      · rcases hO with rfl | rfl
        · exact Or.inl hpred.1.1
        · exact Or.inr hpred.1.1
      · rcases hN with rfl | rfl
        · exact Or.inl hpred.1.2
        · exact Or.inr hpred.1.2
    rw [hnone]
  have h1 := tier org net (Or.inl rfl) (Or.inl rfl)
  have h2 := tier org (chars (r"*")) (Or.inl rfl) (Or.inr rfl)
  have h3 := tier (chars (r"*")) net (Or.inr rfl) (Or.inl rfl)
  have h4 := tier (chars (r"*")) (chars (r"*")) (Or.inr rfl) (Or.inr rfl)
  simp [LookupHostOverride, h1, h2, h3, h4]

/-- Witness for C7: the no-match case of the precedence theorem at a concrete
table, org and network. -/
theorem lookupHostOverride_precedence_witness :
    LookupHostOverride c7rules (chars (r"8.8.8.8")) (chars (r"Zeta")) (chars (r"Lab")) = [] :=
  lookupHostOverride_precedence.1 c7rules _ _ _ (by decide)

-- ── C6 ───────────────────────────────────────────────────────────────────────

/-- The tokens of the 13-nibble pattern 00112233445 followed by an asterisk. -/
def c6toks : List MacTok :=
  [.lit '0', .lit '0', .lit '1', .lit '1', .lit '2', .lit '2', .lit '3', .lit '3',
   .lit '4', .lit '4', .lit '5', .wild]

/-- C6: compile rejects every pattern whose total nibble count differs from 12
(a literal hex digit weighs 1 nibble, an asterisk 2, a bracket set 1), and
rejects an unterminated bracket, an empty bracket, bad bracket content, and a
non-hex character outside brackets with distinguishable errors. -/
theorem buildMacRegex_rejects :
    (∀ (s : List Char) (toks : List MacTok),
       scanAux none s = .ok toks → nibbleCount toks ≠ 12 →
       BuildMacRegex s = .error .patternLength) ∧
    (∀ (input : List Char) (toks : List MacTok),
       goTrimSpace input ≠ [] →
       ('*' ∈ goTrimSpace input ∨ '[' ∈ goTrimSpace input) →
       scanAux none (NormalizePatternInput (goTrimSpace input)) = .ok toks →
       nibbleCount toks ≠ 12 →
       BuildMacMatcher input = .error .patternLength) ∧
    (∃ toks, BuildMacRegex (chars (r"0011223344*")) = .ok toks) ∧
    BuildMacRegex (chars (r"00112233445*")) = .error .patternLength ∧
    (∃ toks, BuildMacRegex (chars (r"[0-F]01122334455")) = .ok toks) ∧
    BuildMacRegex (chars (r"00112233445")) = .error .patternLength ∧
    BuildMacRegex (chars (r"0011223344[0")) = .error .unmatchedBracket ∧
    BuildMacRegex (chars (r"[]0011223344")) = .error .emptyBracket ∧
    BuildMacRegex (chars (r"0011223344[G]")) = .error .invalidBracketContent ∧
    BuildMacRegex (chars (r"001122334X55")) = .error .invalidPattern ∧
    List.Pairwise (fun a b => a ≠ b)
      [MacErr.unmatchedBracket, MacErr.emptyBracket, MacErr.invalidBracketContent,
       MacErr.invalidPattern, MacErr.patternLength] := by
  have hreg : ∀ (s : List Char) (toks : List MacTok),
      scanAux none s = .ok toks → nibbleCount toks ≠ 12 →
      BuildMacRegex s = .error .patternLength := by
    intro s toks h hne
    unfold BuildMacRegex
    rw [h]
    simp [hne]
  refine ⟨hreg, ?_, ⟨_, rfl⟩, by decide, ⟨_, rfl⟩, by decide, by decide, by decide,
    by decide, by decide, by decide⟩
  intro input toks hne hw hscan hnib
  have hbr := hreg _ _ hscan hnib
  have hcond : (decide ('*' ∈ goTrimSpace input) || decide ('[' ∈ goTrimSpace input)) = true := by
    rcases hw with hw | hw <;> simp [hw]
  unfold BuildMacMatcher
  rw [if_neg hne, if_pos hcond, hbr]

/-- Witness for C6: the nibble-count rejection applied at the concrete
13-nibble pattern, discharging the scan and count hypotheses by evaluation. -/
theorem buildMacRegex_rejects_witness :
    BuildMacRegex (chars (r"00112233445*")) = .error .patternLength ∧
    BuildMacMatcher (chars (r"00:11:22:33:44:5*")) = .error .patternLength := by
  constructor
  · exact buildMacRegex_rejects.1 (chars (r"00112233445*")) c6toks (by decide) (by decide)
  · exact buildMacRegex_rejects.2.1 (chars (r"00:11:22:33:44:5*")) c6toks (by decide)
      (by decide) (by decide) (by decide)

-- ── C1 ───────────────────────────────────────────────────────────────────────

/-- C1 (code bug): the Config that handleResolve passes to resolveDevices
keeps MacTablePoll at its zero value for every request, so the forwarding
table job in processSwitchesForResolution is created but its poll loop makes
zero GetMacTableLookup calls and finishes with empty entries and a status
that is never complete — the repository documentation of handleResolve
(src/unnamed/part_001, Bug 2) requires the field to be replaced by
firstNonZeroInt(parseIntEnv(MERAKI_MAC_POLL), 15), which the last conjuncts
show would be the safe default 15, as the CLI path already computes. -/
theorem handleResolve_zero_poll_budget :
    (∀ (req : ResolveReq) (netID : List Char),
       (handleResolveCfg req netID).macTablePoll = 0) ∧
    (∀ (polls : Nat → PollResp) (i : Nat) (es : List MacEntry) (st : List Char),
       pollMacTableLoop polls i 0 es st = ⟨es, st, 0⟩) ∧
    (∀ polls : Nat → PollResp,
       (pollMacTableLoop polls 0 0 [] []).calls = 0 ∧
       (pollMacTableLoop polls 0 0 [] []).entries = [] ∧
       (pollMacTableLoop polls 0 0 [] []).status ≠ chars (r"complete")) ∧
    firstNonZeroInt [0, 15] = 15 ∧
    firstNonZeroInt [0, 0, 15] = 15 := by
  refine ⟨?_, ?_, ?_, by decide, by decide⟩
  · intro req netID
    rfl
  · intro polls i es st
    rfl
  · intro polls
    refine ⟨rfl, rfl, ?_⟩
    show ([] : List Char) ≠ chars (r"complete")
    decide

/-- Witness for C1: the zero budget and the never-polled loop at a concrete
request and poll oracle. -/
theorem handleResolve_zero_poll_budget_witness :
    (handleResolveCfg
        { mac := chars (r"00:11:22:33:44:55"), ip := [], networkID := chars (r"N_1"),
          networkIDs := [], orgID := chars (r"O_1"), apiKey := chars (r"key") }
        (chars (r"N_1"))).macTablePoll = 0 ∧
    pollMacTableLoop (fun _ => Except.ok ([], chars (r"pending"))) 0 0 [] [] =
      ⟨[], [], 0⟩ := by
  constructor
  · exact handleResolve_zero_poll_budget.1 _ _
  · exact handleResolve_zero_poll_budget.2.1 _ _ _ _

-- ── C2 ───────────────────────────────────────────────────────────────────────

/-- A network whose device fetch fails. -/
def c2BadNet : CliNetEnv :=
  { net := { id := chars (r"N1"), name := chars (r"Net One") },
    devices := .error (chars (r"boom")), clients := .ok () }

/-- A network whose fetches succeed. -/
def c2GoodNet : CliNetEnv :=
  { net := { id := chars (r"N2"), name := chars (r"Net Two") },
    devices := .ok [], clients := .ok () }

/-- The row the good network contributes. -/
def c2GoodRow : ResultRow :=
  { orgName := chars (r"Org"), networkName := chars (r"Net Two"),
    switchName := chars (r"sw2"), switchSerial := chars (r"Q2YY-2"),
    port := chars (r"7"), mac := chars (r"00:11:22:33:44:55"), ip := [],
    hostname := [], lastSeen := [], vlan := 1, portMode := chars (r"access") }

/-- Row production for the concrete scenario: only the good network yields a
row. -/
def c2RowsOf (e : CliNetEnv) : List ResultRow :=
  if e.net.id = chars (r"N2") then [c2GoodRow] else []

/-- Counterexample for C2: in a CLI sweep over two networks where the first
network's device fetch fails, the whole run aborts with that error — it does
not continue over the remaining network and return its rows, as the claim
states for sweep mode. -/
theorem cliSweep_failure_fatal_cex :
    cliNetworksLoop c2RowsOf [c2BadNet, c2GoodNet] = .error (chars (r"boom")) ∧
    cliNetworksLoop c2RowsOf [c2GoodNet] = .ok [c2GoodRow] ∧
    cliNetworksLoop c2RowsOf [c2BadNet, c2GoodNet] ≠ .ok [c2GoodRow] := by
  refine ⟨rfl, rfl, ?_⟩
  decide

/-- C2 (amended): the tolerant/fatal asymmetry is between the two code paths,
not between sweep and single-target scope: the web resolve loop skips any
network whose resolution fails and continues over the remaining ones (however
many networks were requested), while the CLI per-network loop turns any
devices or client-history fetch failure into a failure of the whole run, even
when sweeping many networks. -/
theorem perNetwork_failure_semantics :
    (∀ (resolve : List Char → Except (List Char) (List ResultRow))
       (id : List Char) (rest : List (List Char)) (e : List Char),
       resolve id = .error e →
       handleResolveLoop resolve (id :: rest) = handleResolveLoop resolve rest) ∧
    (∀ (rowsOf : CliNetEnv → List ResultRow) (nets : List CliNetEnv),
       (∃ e ∈ nets, (∃ msg, e.devices = .error msg) ∨ (∃ msg, e.clients = .error msg)) →
       ∃ msg, cliNetworksLoop rowsOf nets = .error msg) := by
  constructor
  · intro resolve id rest e h
    simp only [handleResolveLoop, h]
  · intro rowsOf nets
    induction nets with
    | nil => rintro ⟨e, he, _⟩; simp at he
    | cons n rest ih =>
      rintro ⟨e, he, hfail⟩
      rcases List.mem_cons.mp he with rfl | hmem
      · rcases hfail with ⟨msg, hdev⟩ | ⟨msg, hcli⟩
        · exact ⟨msg, by unfold cliNetworksLoop; rw [hdev]⟩
        · cases hdevs : e.devices with
          | error m => exact ⟨m, by unfold cliNetworksLoop; rw [hdevs]⟩
          | ok _ => exact ⟨msg, by unfold cliNetworksLoop; rw [hdevs, hcli]⟩
      · cases hdevs : n.devices with
        | error m => exact ⟨m, by unfold cliNetworksLoop; rw [hdevs]⟩
        | ok _ =>
          cases hcli : n.clients with
          | error m => exact ⟨m, by unfold cliNetworksLoop; rw [hdevs, hcli]⟩
          | ok _ =>
            obtain ⟨msg, hrest⟩ := ih ⟨e, hmem, hfail⟩
            exact ⟨msg, by unfold cliNetworksLoop; rw [hdevs, hcli, hrest]⟩

/-- A resolve function for the witness: the first network errors, the second
returns one row. -/
def c2Resolve (id : List Char) : Except (List Char) (List ResultRow) :=
  if id = chars (r"N1") then .error (chars (r"not a switch network"))
  else .ok [c2GoodRow]

/-- Witness for C2: the web loop drops the failing first network and keeps
the second, and the CLI loop fails as a whole on the same scenario. -/
theorem perNetwork_failure_semantics_witness :
    handleResolveLoop c2Resolve [chars (r"N1"), chars (r"N2")] =
      handleResolveLoop c2Resolve [chars (r"N2")] ∧
    ∃ msg, cliNetworksLoop c2RowsOf [c2BadNet, c2GoodNet] = .error msg := by
  constructor
  · exact perNetwork_failure_semantics.1 c2Resolve _ _ _ rfl
  · exact perNetwork_failure_semantics.2 c2RowsOf _
      ⟨c2BadNet, List.mem_cons_self _ _, Or.inl ⟨chars (r"boom"), rfl⟩⟩

-- ── C8 ───────────────────────────────────────────────────────────────────────

theorem doRequestGo_succ_ok (respOf : Nat → Except Unit HttpResp) (i n : Nat)
    (sleeps : List Nat) (r : HttpResp) (hr : respOf i = .ok r) :
    doRequestGo respOf i (n + 1) sleeps =
      if r.status = 429 then doRequestGo respOf (i + 1) n (sleeps ++ [goRetryDelay r i])
      else if 300 ≤ r.status then (.httpError r.status r.body, sleeps)
      else (.okResp r.body r.linkNext, sleeps) := by
  simp only [doRequestGo, hr]

theorem doRequestGo_succ_err (respOf : Nat → Except Unit HttpResp) (i n : Nat)
    (sleeps : List Nat) (u : Unit) (hr : respOf i = .error u) :
    doRequestGo respOf i (n + 1) sleeps = (.transportError, sleeps) := by
  simp only [doRequestGo, hr]

theorem doRequestGo_all_throttled (respOf : Nat → Except Unit HttpResp) :
    ∀ (n i : Nat) (sleeps : List Nat),
      (∀ j, i ≤ j → j < i + n → isThrottle (respOf j) = true) →
      doRequestGo respOf i n sleeps =
        (.exhausted, sleeps ++ (List.range' i n).map (fun j => delayOf (respOf j) j)) := by
  intro n
  induction n with
  | zero => intro i sleeps _; simp [doRequestGo]
  | succ n ih =>
    intro i sleeps h
    have hi : isThrottle (respOf i) = true := h i le_rfl (by omega)
    cases hr : respOf i with
    | error u => rw [hr] at hi; simp [isThrottle] at hi
    | ok r =>
      rw [hr] at hi
      have h429 : r.status = 429 := by simpa [isThrottle] using hi
      have step := ih (i + 1) (sleeps ++ [goRetryDelay r i])
        (fun j hj1 hj2 => h j (by omega) (by omega))
      rw [doRequestGo_succ_ok respOf i n sleeps r hr, if_pos h429, step]
      simp [List.range', hr, delayOf]

theorem doRequestGo_first_settled (respOf : Nat → Except Unit HttpResp) :
    ∀ (n i : Nat) (sleeps : List Nat) (k : Nat),
      i ≤ k → k < i + n →
      (∀ j, i ≤ j → j < k → isThrottle (respOf j) = true) →
      isThrottle (respOf k) = false →
      (doRequestGo respOf i n sleeps).1 = stepResult (respOf k) := by
  intro n
  induction n with
  | zero => intro i sleeps k h1 h2 _ _; omega
  | succ n ih =>
    intro i sleeps k hik hkn hthr hk
    by_cases hki : k = i
    · subst hki
      cases hr : respOf k with
      | error u =>
        rw [doRequestGo_succ_err respOf k n sleeps u hr]
        simp [stepResult]
      | ok r =>
        rw [hr] at hk
        have h429 : ¬(r.status = 429) := by simpa [isThrottle] using hk
        rw [doRequestGo_succ_ok respOf k n sleeps r hr, if_neg h429]
        simp only [stepResult, if_neg h429]
        by_cases h300 : 300 ≤ r.status <;> simp [h300]
    · have hik2 : i < k := by omega
      have hi : isThrottle (respOf i) = true := hthr i le_rfl hik2
      cases hr : respOf i with
      | error u => rw [hr] at hi; simp [isThrottle] at hi
      | ok r =>
        rw [hr] at hi
        have h429 : r.status = 429 := by simpa [isThrottle] using hi
        have step := ih (i + 1) (sleeps ++ [goRetryDelay r i]) k (by omega) (by omega)
          (fun j hj1 hj2 => hthr j (by omega) hj2) hk
        rw [doRequestGo_succ_ok respOf i n sleeps r hr, if_pos h429]
        exact step

/-- C8: doRequest retries only on status 429, sleeping the parsed Retry-After
seconds when the header supplies them and the linear backoff 1+attempt
otherwise, up to the retry budget; the first non-429 outcome returns at once —
an error carrying status and body when the status is at least 300, the body
otherwise; and a fully throttled budget ends in the exhausted error, never in
a successful empty result. -/
theorem doRequest_throttle_policy :
    (∀ (maxR : Nat) (respOf : Nat → Except Unit HttpResp),
       (∀ j, j < maxR → isThrottle (respOf j) = true) →
       doRequest maxR respOf =
         (.exhausted, (List.range' 0 maxR).map (fun j => delayOf (respOf j) j))) ∧
    (∀ (maxR : Nat) (respOf : Nat → Except Unit HttpResp) (k : Nat) (r : HttpResp),
       k < maxR → (∀ j, j < k → isThrottle (respOf j) = true) →
       respOf k = .ok r → r.status ≠ 429 →
       (doRequest maxR respOf).1 =
         if 300 ≤ r.status then .httpError r.status r.body
         else .okResp r.body r.linkNext) ∧
    (∀ (r : HttpResp) (i : Nat), r.retryAfter = none → goRetryDelay r i = 1 + i) ∧
    (∀ (r : HttpResp) (i s : Nat), r.retryAfter = some (some s) → goRetryDelay r i = s) ∧
    (∀ (maxR : Nat) (respOf : Nat → Except Unit HttpResp),
       (∀ j, j < maxR → isThrottle (respOf j) = true) →
       ∀ (b nx : List Char), (doRequest maxR respOf).1 ≠ .okResp b nx) := by
  have hall : ∀ (maxR : Nat) (respOf : Nat → Except Unit HttpResp),
      (∀ j, j < maxR → isThrottle (respOf j) = true) →
      doRequest maxR respOf =
        (.exhausted, (List.range' 0 maxR).map (fun j => delayOf (respOf j) j)) := by
    intro maxR respOf h
    exact doRequestGo_all_throttled respOf maxR 0 []
      (fun j hj1 hj2 => h j (by omega))
  refine ⟨hall, ?_, ?_, ?_, ?_⟩
  · intro maxR respOf k r hk hthr hok h429
    have := doRequestGo_first_settled respOf maxR 0 [] k (Nat.zero_le k) (by omega)
      (fun j hj1 hj2 => hthr j hj2) (by simp [isThrottle, hok, h429])
    rw [doRequest, this, hok]
    simp [stepResult, h429]
  · intro r i h; simp [goRetryDelay, h]
  · intro r i s h; simp [goRetryDelay, h]
  · intro maxR respOf h b nx
    rw [hall maxR respOf h]
    simp

/-- Witness for C8: a budget of two fully throttled attempts without a
Retry-After header sleeps the linear backoff 1 then 2 seconds and ends
exhausted; a 404 after two throttled attempts returns the error with status
and body at once; the parsed Retry-After of 7 seconds overrides the backoff. -/
theorem doRequest_throttle_policy_witness :
    doRequest 2 (fun _ => Except.ok ⟨429, [], none, []⟩) = (.exhausted, [1, 2]) ∧
    (doRequest 3 (fun i => if i < 2 then Except.ok ⟨429, [], none, []⟩
        else Except.ok ⟨404, chars (r"nf"), none, []⟩)).1 =
      .httpError 404 (chars (r"nf")) ∧
    goRetryDelay ⟨429, [], some (some 7), []⟩ 0 = 7 := by
  refine ⟨?_, ?_, ?_⟩
  · have := doRequest_throttle_policy.1 2 (fun _ => Except.ok ⟨429, [], none, []⟩)
      (by decide)
    rw [this]
    rfl
  · have := doRequest_throttle_policy.2.1 3
      (fun i => if i < 2 then Except.ok ⟨429, [], none, []⟩
        else Except.ok ⟨404, chars (r"nf"), none, []⟩) 2 ⟨404, chars (r"nf"), none, []⟩
      (by omega) (by decide) (by norm_num) (by decide)
    rw [this]
    decide
  · exact doRequest_throttle_policy.2.2.2.1 ⟨429, [], some (some 7), []⟩ 0 7 rfl

-- ── C9 ───────────────────────────────────────────────────────────────────────

theorem arpCacheLookup_cons (k : List Char) (v : List Char → List Char)
    (cache : List (List Char × (List Char → List Char))) (s : List Char) :
    arpCacheLookup ((k, v) :: cache) s = if k == s then some v else arpCacheLookup cache s := by
  unfold arpCacheLookup
  rw [List.find?_cons]
  by_cases h : (k == s : Bool) <;> simp [h]

/-- The invariant the ARP cache maintains: the fetch trace has no repeats and
every fetched serial is cached. -/
def arpInv (st : ArpState) : Prop :=
  st.fetches.Nodup ∧ ∀ s ∈ st.fetches, (arpCacheLookup st.cache s).isSome = true

theorem ipAndHostname_state (env : IpEnv) (st : ArpState)
    (normMAC knownIP serial : List Char) :
    (ipAndHostname env st normMAC knownIP serial).2 =
      if (if knownIP = [] then env.macToIP normMAC else knownIP) = [] ∧ serial ≠ [] then
        arpStep env st serial
      else st := by
  unfold ipAndHostname
  by_cases hcond : ((if knownIP = [] then env.macToIP normMAC else knownIP) = [] ∧ serial ≠ [])
    <;> simp [hcond]

theorem arpStep_inv (env : IpEnv) (st : ArpState) (serial : List Char) (h : arpInv st) :
    arpInv (arpStep env st serial) := by
  unfold arpStep
  cases hl : arpCacheLookup st.cache serial with
  | some m => exact h
  | none =>
    have hnotin : serial ∉ st.fetches := by
      intro hmem
      have := h.2 serial hmem
      rw [hl] at this
      simp at this
    constructor
    · simp [List.nodup_append, h.1, hnotin]
    · intro s hs
      rw [arpCacheLookup_cons]
      by_cases hks : (serial == s : Bool)
      · simp [hks]
      · simp only [hks, Bool.false_eq_true, ite_false]
        rcases List.mem_append.mp hs with hs | hs
        · exact h.2 s hs
        · simp at hs
          subst hs
          simp at hks

theorem ipAndHostname_inv (env : IpEnv) (st : ArpState)
    (normMAC knownIP serial : List Char) (h : arpInv st) :
    arpInv (ipAndHostname env st normMAC knownIP serial).2 := by
  rw [ipAndHostname_state]
  by_cases hcond : ((if knownIP = [] then env.macToIP normMAC else knownIP) = [] ∧ serial ≠ [])
  · simpa [hcond] using arpStep_inv env st serial h
  · simpa [hcond] using h

theorem runIpEnrichments_inv (env : IpEnv) :
    ∀ (reqs : List (List Char × List Char × List Char)) (st : ArpState),
      arpInv st → arpInv (runIpEnrichments env st reqs) := by
  intro reqs
  induction reqs with
  | nil => intro st h; simpa [runIpEnrichments] using h
  | cons req rest ih =>
    intro st h
    obtain ⟨normMAC, knownIP, serial⟩ := req
    exact ih _ (ipAndHostname_inv env st normMAC knownIP serial h)

theorem count_le_one_of_nodup (l : List (List Char)) (h : l.Nodup) (a : List Char) :
    l.count a ≤ 1 := by
  induction l with
  | nil => simp
  | cons x xs ih =>
    rw [List.count_cons]
    rcases List.nodup_cons.mp h with ⟨hx, hxs⟩
    by_cases hax : x = a
    · subst hax
      have hz : xs.count x = 0 := List.count_eq_zero_of_not_mem hx
      simp [hz]
    · simpa [hax] using ih hxs

/-- C9: within one pass, the live ARP-table job runs at most once per device
serial — the fetch trace of any request sequence counts every serial at most
once — and an enrichment that finds the serial already cached leaves both the
cache and the fetch trace untouched, reusing the cached map. -/
theorem arp_fetch_at_most_once :
    (∀ (env : IpEnv) (reqs : List (List Char × List Char × List Char)) (serial : List Char),
       ((runIpEnrichments env ⟨[], []⟩ reqs).fetches).count serial ≤ 1) ∧
    (∀ (env : IpEnv) (st : ArpState) (normMAC knownIP serial : List Char),
       (arpCacheLookup st.cache serial).isSome = true →
       ((ipAndHostname env st normMAC knownIP serial).2).fetches = st.fetches ∧
       ((ipAndHostname env st normMAC knownIP serial).2).cache = st.cache) := by
  constructor
  · intro env reqs serial
    have hinv : arpInv (runIpEnrichments env ⟨[], []⟩ reqs) :=
      runIpEnrichments_inv env reqs ⟨[], []⟩ ⟨List.nodup_nil, by simp⟩
    exact count_le_one_of_nodup _ hinv.1 serial
  · intro env st normMAC knownIP serial h
    obtain ⟨m, hm⟩ := Option.isSome_iff_exists.mp h
    rw [ipAndHostname_state]
    by_cases hcond : ((if knownIP = [] then env.macToIP normMAC else knownIP) = [] ∧ serial ≠ [])
      <;> simp [hcond, arpStep, hm]

/-- A concrete enrichment environment for the ARP witness. -/
def c9env : IpEnv :=
  { macToIP := fun _ => [], fetchArp := fun _ => (fun _ => chars (r"10.0.0.9")),
    resolvedHostname := [], resolveHostname := fun _ => [] }

/-- Witness for C9: two IP-less rows on the same switch fetch at most once,
and a pre-cached serial is reused without touching the trace. -/
theorem arp_fetch_at_most_once_witness :
    ((runIpEnrichments c9env ⟨[], []⟩
        [(chars (r"001122334455"), [], chars (r"S1")),
         (chars (r"aabbccddeeff"), [], chars (r"S1"))]).fetches).count (chars (r"S1")) ≤ 1 ∧
    ((ipAndHostname c9env
        ⟨[(chars (r"S1"), fun _ => chars (r"10.0.0.9"))], [chars (r"S1")]⟩
        (chars (r"001122334455")) [] (chars (r"S1"))).2).fetches = [chars (r"S1")] := by
  constructor
  · exact arp_fetch_at_most_once.1 c9env _ _
  · exact (arp_fetch_at_most_once.2 c9env
      ⟨[(chars (r"S1"), fun _ => chars (r"10.0.0.9"))], [chars (r"S1")]⟩
      (chars (r"001122334455")) [] (chars (r"S1")) rfl).1

-- ── C3 ───────────────────────────────────────────────────────────────────────

theorem normalizeOk_spec (x n : List Char) (h : NormalizeExactMac x = .ok n) :
    n = (x.map toLowerA).filter (fun c => !goIsSep c) ∧ n.length = 12 ∧
      n.all isHexDigit = true := by
  simp only [NormalizeExactMac] at h
  split at h
  · cases h
  · split at h
    · cases h
      refine ⟨rfl, ?_, by assumption⟩
      omega
    · cases h

theorem norm_char_absent (x n : List Char) (h : NormalizeExactMac x = .ok n) (c : Char)
    (hfix : toLowerA c = c) (hsep : goIsSep c = false) (hhex : isHexDigit c = false) :
    c ∉ x := by
  obtain ⟨hn, _, hall⟩ := normalizeOk_spec x n h
  intro hc
  have h1 : c ∈ x.map toLowerA := by
    have := List.mem_map_of_mem toLowerA hc
    rwa [hfix] at this
  have h2 : c ∈ n := by
    rw [hn]
    exact List.mem_filter.mpr ⟨h1, by simp [hsep]⟩
  have h3 := List.all_eq_true.mp hall c h2
  rw [hhex] at h3
  exact absurd h3 (by simp)

theorem dropWhile_eq_self_of_none (p : Char → Bool) (l : List Char)
    (h : ∀ c ∈ l, p c = false) : l.dropWhile p = l := by
  cases l with
  | nil => rfl
  | cons a l => rw [List.dropWhile_cons]; simp [h a (List.mem_cons_self a l)]

theorem goTrimSpace_eq_self (x : List Char) (h : ∀ c ∈ x, goIsSpace c = false) :
    goTrimSpace x = x := by
  unfold goTrimSpace
  rw [dropWhile_eq_self_of_none _ _ h]
  rw [dropWhile_eq_self_of_none _ _ (fun c hc => h c (List.mem_reverse.mp hc))]
  exact List.reverse_reverse x

theorem colonChunks_length :
    ∀ (l : List Char), l.length % 2 = 0 → l ≠ [] →
      (colonChunks l).length = l.length + l.length / 2 - 1
  | [], _, hne => absurd rfl hne
  | [_], h, _ => by simp at h
  | a :: b :: rest, h, _ => by
    by_cases hr : rest = []
    · subst hr; simp [colonChunks]
    · have hlen : rest.length % 2 = 0 := by
        simp only [List.length_cons] at h
        omega
      have ih := colonChunks_length rest hlen hr
      have hrlen : rest.length ≠ 0 := by simpa using hr
      simp only [colonChunks, hr, ite_false, List.length_cons]
      omega

theorem formatMacColon_length (n : List Char) (h : n.length = 12) :
    (FormatMacColon n).length = 17 := by
  unfold FormatMacColon
  have hm : (n.map toLowerA).length = 12 := by simp [h]
  have hne : n.map toLowerA ≠ [] := by
    intro hh
    rw [hh] at hm
    simp at hm
  rw [if_pos hm, colonChunks_length _ (by omega) hne, hm]

/-- C3 (amended): for every input x that normalization accepts, compiling x
yields the exact matcher with the colon display form; that matcher accepts
the canonical normalized form normalize(x) (case-insensitive equality) but
returns false on the colon-separated display string format(normalize(x)),
because the exact closure compares without re-normalizing its argument. -/
theorem buildMacMatcher_exact_display (x n : List Char)
    (h : NormalizeExactMac x = .ok n) :
    BuildMacMatcher x = .ok (.exact n, FormatMacColon n, false) ∧
    runMatcher (.exact n) n = true ∧
    runMatcher (.exact n) (FormatMacColon n) = false := by
  obtain ⟨hn, hlen, hall⟩ := normalizeOk_spec x n h
  refine ⟨?_, ?_, ?_⟩
  · have hstar : '*' ∉ x := norm_char_absent x n h '*' (by decide) (by decide) (by decide)
    have hbr : '[' ∉ x := norm_char_absent x n h '[' (by decide) (by decide) (by decide)
    have hns : ∀ c ∈ x, goIsSpace c = false := by
      intro c hc
      by_contra hsp
      have hsp2 : goIsSpace c = true := by simpa using hsp
      have hcases : c = ' ' ∨ c = '\t' ∨ c = '\n' ∨ c = '\r' ∨ c = '\x0b' ∨ c = '\x0c' := by
        simpa [goIsSpace, or_assoc] using hsp2
      rcases hcases with rfl | rfl | rfl | rfl | rfl | rfl <;>
        exact absurd hc (norm_char_absent x n h _ (by decide) (by decide) (by decide))
    have htrim : goTrimSpace x = x := goTrimSpace_eq_self x hns
    have hxne : x ≠ [] := by
      intro hx
      subst hx
      simp [NormalizeExactMac] at h
    have hw : (decide ('*' ∈ x) || decide ('[' ∈ x)) = false := by simp [hstar, hbr]
    unfold BuildMacMatcher
    rw [htrim, if_neg hxne, hw]
    simp [h]
  · simp [runMatcher, goEqualFold]
  · unfold runMatcher goEqualFold
    have hlen17 : (FormatMacColon n).length = 17 := formatMacColon_length n hlen
    rw [beq_eq_false_iff_ne]
    intro heq
    have hlens := congrArg List.length heq
    simp only [List.length_map, hlen17, hlen] at hlens
    omega

/-- Counterexample for C3: the exact matcher compiled from the normal exact
address rejects the colon-separated display form of that very address, while
accepting the canonical form; so format(normalize(x)) is not accepted by the
matcher built from x. -/
theorem buildMacMatcher_display_cex :
    BuildMacMatcher (chars (r"00:11:22:33:44:55")) =
      .ok (.exact (chars (r"001122334455")), chars (r"00:11:22:33:44:55"), false) ∧
    FormatMacColon (chars (r"001122334455")) = chars (r"00:11:22:33:44:55") ∧
    runMatcher (.exact (chars (r"001122334455"))) (chars (r"00:11:22:33:44:55")) = false ∧
    runMatcher (.exact (chars (r"001122334455"))) (chars (r"001122334455")) = true := by
  refine ⟨?_, by decide, by decide, by decide⟩
  decide

/-- Witness for C3: the amended exact-matcher theorem applied at a concrete
hyphen-separated upper-case address. -/
theorem buildMacMatcher_exact_display_witness :
    BuildMacMatcher (chars (r"AA-BB-CC-DD-EE-FF")) =
      .ok (.exact (chars (r"aabbccddeeff")), FormatMacColon (chars (r"aabbccddeeff")), false) ∧
    runMatcher (.exact (chars (r"aabbccddeeff"))) (chars (r"aabbccddeeff")) = true ∧
    runMatcher (.exact (chars (r"aabbccddeeff")))
      (FormatMacColon (chars (r"aabbccddeeff"))) = false :=
  buildMacMatcher_exact_display (chars (r"AA-BB-CC-DD-EE-FF")) (chars (r"aabbccddeeff"))
    (by decide)

-- ── C4 ───────────────────────────────────────────────────────────────────────

theorem tableEntryStep_flag (o nn : List Char) (m : Matcher)
    (enrich : List Char → List Char → Int → List Char → Int × List Char)
    (hn : List Char) (dev : Device) (acc : DedupState × Bool) (entry : MacEntry) :
    (tableEntryStep o nn m enrich hn dev acc entry).2 = (acc.2 || entryMatches m entry) := by
  unfold tableEntryStep entryMatches
  by_cases h1 : entry.mac = []
  · simp [h1]
  · simp only [h1, ite_false, if_neg]
    cases hnm : NormalizeExactMac entry.mac with
    | error e => simp
    | ok nm => by_cases hm : runMatcher m nm <;> simp [hm]

theorem foldTable_flag (o nn : List Char) (m : Matcher)
    (enrich : List Char → List Char → Int → List Char → Int × List Char)
    (hn : List Char) (dev : Device) :
    ∀ (entries : List MacEntry) (acc : DedupState × Bool),
      (entries.foldl (tableEntryStep o nn m enrich hn dev) acc).2 =
        (acc.2 || entries.any (entryMatches m)) := by
  intro entries
  induction entries with
  | nil => intro acc; simp
  | cons e es ih =>
    intro acc
    rw [List.foldl_cons, ih, tableEntryStep_flag]
    simp [Bool.or_assoc]

/-- C4: after a successful job creation, a poll loop ending complete with at
least one entry matching the pattern emits rows and skips the device-scoped
fallback; ending complete with entries but no match still runs the fallback;
never reaching complete within the budget (or erroring) runs the fallback
unconditionally, as does a failed job creation. -/
theorem forwardingTable_fallback_policy :
    (∀ (o nn : List Char) (m : Matcher)
       (enrich : List Char → List Char → Int → List Char → Int × List Char)
       (hn : List Char) (poll : Nat) (dev : Device) (env : DevEnv) (st : DedupState)
       (jid : List Char),
       env.create = .ok jid →
       (pollMacTableLoop env.polls 0 poll [] []).status = chars (r"complete") →
       (pollMacTableLoop env.polls 0 poll [] []).entries ≠ [] →
       ((pollMacTableLoop env.polls 0 poll [] []).entries.any (entryMatches m)) = true →
       (deviceStep o nn m enrich hn poll dev env st).2 = false) ∧
    (∀ (o nn : List Char) (m : Matcher)
       (enrich : List Char → List Char → Int → List Char → Int × List Char)
       (hn : List Char) (poll : Nat) (dev : Device) (env : DevEnv) (st : DedupState)
       (jid : List Char),
       env.create = .ok jid →
       (pollMacTableLoop env.polls 0 poll [] []).status = chars (r"complete") →
       (pollMacTableLoop env.polls 0 poll [] []).entries ≠ [] →
       ((pollMacTableLoop env.polls 0 poll [] []).entries.any (entryMatches m)) = false →
       (deviceStep o nn m enrich hn poll dev env st).2 = true) ∧
    (∀ (o nn : List Char) (m : Matcher)
       (enrich : List Char → List Char → Int → List Char → Int × List Char)
       (hn : List Char) (poll : Nat) (dev : Device) (env : DevEnv) (st : DedupState)
       (jid : List Char),
       env.create = .ok jid →
       (pollMacTableLoop env.polls 0 poll [] []).status ≠ chars (r"complete") →
       (deviceStep o nn m enrich hn poll dev env st).2 = true) ∧
    (∀ (o nn : List Char) (m : Matcher)
       (enrich : List Char → List Char → Int → List Char → Int × List Char)
       (hn : List Char) (poll : Nat) (dev : Device) (env : DevEnv) (st : DedupState)
       (u : Unit),
       env.create = .error u →
       (deviceStep o nn m enrich hn poll dev env st).2 = true) := by
  refine ⟨?_, ?_, ?_, ?_⟩
  · intro o nn m enrich hn poll dev env st jid hc hst hent hany
    simp only [deviceStep, hc]
    rw [if_pos ⟨hst, hent⟩]
    have hflag : ((pollMacTableLoop env.polls 0 poll [] []).entries.foldl
        (tableEntryStep o nn m enrich hn dev) (st, false)).2 = true := by
      rw [foldTable_flag]
      simpa using hany
    simp [hflag]
  · intro o nn m enrich hn poll dev env st jid hc hst hent hany
    simp only [deviceStep, hc]
    rw [if_pos ⟨hst, hent⟩]
    have hflag : ((pollMacTableLoop env.polls 0 poll [] []).entries.foldl
        (tableEntryStep o nn m enrich hn dev) (st, false)).2 = false := by
      rw [foldTable_flag]
      simpa using hany
    simp [hflag]
  · intro o nn m enrich hn poll dev env st jid hc hst
    simp only [deviceStep, hc]
    rw [if_neg (fun hcontra => hst hcontra.1)]
  · intro o nn m enrich hn poll dev env st u hc
    simp only [deviceStep, hc]

/-- The matcher of the concrete device-step scenario. -/
def c4matcher : Matcher :=
  .exact (chars (r"001122334455"))

/-- The switch of the concrete device-step scenario. -/
def c4dev : Device :=
  { serial := chars (r"Q2AA-1"), name := chars (r"sw1"), model := chars (r"MS120"),
    productType := chars (r"switch") }

/-- A live-table entry that matches the pattern. -/
def c4entry : MacEntry :=
  { mac := chars (r"00:11:22:33:44:55"), portId := chars (r"3"), port := [], iface := [],
    vlan := 0, typ := [] }

/-- A device environment whose job completes on the first poll with the
matching entry. -/
def c4env : DevEnv :=
  { create := .ok (chars (r"job1")),
    polls := fun _ => .ok ([c4entry], chars (r"complete")),
    deviceClients := .ok [] }

/-- A pass-through port-enrichment oracle (returns the defaults, as
enrichPortInfo does when the port API fails). -/
def c4enrich : List Char → List Char → Int → List Char → Int × List Char :=
  fun _ _ dv dm => (dv, dm)

/-- The row the concrete scenario emits. -/
def c4row : ResultRow :=
  { orgName := chars (r"Org"), networkName := chars (r"Net"), switchName := chars (r"sw1"),
    switchSerial := chars (r"Q2AA-1"), port := chars (r"3"),
    mac := chars (r"00:11:22:33:44:55"), ip := [], hostname := [], lastSeen := [],
    vlan := 0, portMode := [] }

/-- Witness for C4: on the concrete environment the step emits exactly the
matching row and skips the fallback (flag false, shown by applying the policy
theorem), and with an empty-matching matcher the fallback runs. -/
theorem forwardingTable_fallback_policy_witness :
    (deviceStep (chars (r"Org")) (chars (r"Net")) c4matcher c4enrich [] 1 c4dev c4env
        ⟨[], []⟩).2 = false ∧
    deviceStep (chars (r"Org")) (chars (r"Net")) c4matcher c4enrich [] 1 c4dev c4env
        ⟨[], []⟩ = (⟨[rowKey c4row], [c4row]⟩, false) ∧
    (deviceStep (chars (r"Org")) (chars (r"Net")) (.exact (chars (r"aabbccddeeff")))
        c4enrich [] 1 c4dev c4env ⟨[], []⟩).2 = true := by
  refine ⟨?_, by decide, ?_⟩
  · exact forwardingTable_fallback_policy.1 (chars (r"Org")) (chars (r"Net")) c4matcher
      c4enrich [] 1 c4dev c4env ⟨[], []⟩ (chars (r"job1")) rfl (by decide) (by decide)
      (by decide)
  · exact forwardingTable_fallback_policy.2.1 (chars (r"Org")) (chars (r"Net"))
      (.exact (chars (r"aabbccddeeff"))) c4enrich [] 1 c4dev c4env ⟨[], []⟩
      (chars (r"job1")) rfl (by decide) (by decide) (by decide)
